import Mathlib

/-!
Shallow embedding of the Balances callback of rusty-blockparser
(src/callbacks/balances.rs) together with the parts of the data model it
uses.  Machine integers are modelled as Nat / Int with explicit wrapping
(the release-profile semantics of Rust arithmetic: casts and overflowing
operations wrap two's-complement, shift counts are masked by the bit
width).  File activity is modelled as a list of events, and fallible file
operations are driven by explicit success flags.
-/

namespace RustyBalances

set_option maxRecDepth 4000

/-- Twos-complement wrap of an integer into the signed 64-bit range:
the value semantics of Rust i64 arithmetic with overflow checks off. -/
def wrap64 (x : Int) : Int := (x + 2 ^ 63) % 2 ^ 64 - 2 ^ 63

/-- Rust cast from u64 to i64 (wrapping reinterpretation of the bits). -/
def u64_as_i64 (n : Nat) : Int := wrap64 (n : Int)

/-- Rust cast from i64 to u64 (wrapping reinterpretation of the bits). -/
def i64_as_u64 (x : Int) : Nat := (x % 2 ^ 64).toNat

/-- Byte strings (Rust Vec of u8). -/
abbrev Bytes := List Nat

/-- Modelled from the spec: the record stored per live output in the
Unspent Index (the struct common.UnspentValue lives in
src/callbacks/common.rs, which is not among the given sources): owning
address in text form, value in satoshis, and creation height. -/
structure UnspentValue where
  address : String
  value : Nat
  height : Nat
deriving DecidableEq

/-- The Unspent Index: a finite map from output key to UnspentValue
(a std HashMap in the source), embedded as an association list. -/
abbrev Unspents := List (Bytes × UnspentValue)

/-- HashMap.remove: delete the binding of a key, returning it if present. -/
def removeU (m : Unspents) (k : Bytes) : Option UnspentValue × Unspents :=
  match m with
  | [] => (none, [])
  | kv :: rest =>
      if kv.1 = k then (some kv.2, rest)
      else
        let r := removeU rest k
        (r.1, kv :: r.2)

/-- HashMap.insert: bind a key, replacing any existing binding. -/
def insertU (m : Unspents) (k : Bytes) (v : UnspentValue) : Unspents :=
  match m with
  | [] => [(k, v)]
  | kv :: rest => if kv.1 = k then (k, v) :: rest else kv :: insertU rest k v

/-- Little-endian byte serialization of a 32-bit output index. -/
def u32le (n : Nat) : Bytes := [n % 256, n / 256 % 256, n / 65536 % 256, n / 16777216 % 256]

/-- Modelled from the spec: an OutputKey is the owning transaction
identifier concatenated with its output index. -/
def outputKey (txid : Bytes) (idx : Nat) : Bytes := txid ++ u32le idx

/-- Modelled from the spec: a transaction input; none marks a coinbase
input, which references no prior output and is skipped, not looked up. -/
structure TxInput where
  outpoint : Option (Bytes × Nat)
deriving DecidableEq

/-- Modelled from the spec: a transaction output with its value in
satoshis; address is none for a non-address-bearing output, which the
Unspent Index excludes from its accounting. -/
structure TxOutput where
  address : Option String
  value : Nat
deriving DecidableEq

/-- Modelled from the spec: a decoded transaction, as consumed by the
Block Applier.  The raw binary format is out of scope. -/
structure Tx where
  txid : Bytes
  inputs : List TxInput
  outputs : List TxOutput
deriving DecidableEq

/-- Modelled from the spec: a decoded block is its transaction list. -/
structure Block where
  txs : List Tx
deriving DecidableEq

/-- One input of the spend step: look up and remove the referenced entry;
a miss contributes zero, a coinbase input is skipped. -/
def spendStep (acc : (Nat × Nat) × Unspents) (inp : TxInput) : (Nat × Nat) × Unspents :=
  match inp.outpoint with
  | none => acc
  | some p =>
      let r := removeU acc.2 (outputKey p.1 p.2)
      match r.1 with
      | none => (acc.1, r.2)
      | some v => ((acc.1.1 + 1, acc.1.2 + v.value), r.2)

/-- Modelled from the spec: common.remove_unspents, the spend step of the
Block Applier — for every input of the transaction remove the referenced
entry from the index, accumulating removed count and removed value. -/
def remove_unspents (tx : Tx) (m : Unspents) : (Nat × Nat) × Unspents :=
  tx.inputs.foldl spendStep ((0, 0), m)

/-- The create step over the remaining outputs, carrying the positional
output index. -/
def insertOuts (txid : Bytes) (h : Nat) (idx : Nat) (outs : List TxOutput)
    (acc : (Nat × Nat) × Unspents) : (Nat × Nat) × Unspents :=
  match outs with
  | [] => acc
  | o :: rest =>
      match o.address with
      | none => insertOuts txid h (idx + 1) rest acc
      | some a =>
          insertOuts txid h (idx + 1) rest
            ((acc.1.1 + 1, acc.1.2 + o.value),
             insertU acc.2 (outputKey txid idx) (UnspentValue.mk a o.value h))

/-- Modelled from the spec: common.insert_unspents, the create step of the
Block Applier — insert one entry per address-bearing output of the
transaction at the current height, accumulating count and value. -/
def insert_unspents (tx : Tx) (h : Nat) (m : Unspents) : (Nat × Nat) × Unspents :=
  insertOuts tx.txid h 0 tx.outputs ((0, 0), m)

/-- block_reward from src/callbacks/balances.rs: initial reward 50 * 10^8
halved every 210000 blocks by a u64 right shift.  The shift count is
masked modulo 64, the release-profile semantics of the Rust shift; a
debug build instead panics as soon as height / 210000 reaches 64. -/
def block_reward (height : Nat) : Nat :=
  let initial_reward := 50 * 100000000
  let halving_interval := 210000
  let halvings := height / halving_interval
  let reward := initial_reward >>> (halvings % 64)
  reward

/-- Specification-side Block Applier totals: the same spend/create map
evolution as the loop in Balances.on_block, but with exact (unbounded)
spent-value and created-value sums.  Used to state what the wrapping i64
loop computes. -/
def applyTxs (h : Nat) (m : Unspents) (txs : List Tx) : Unspents × Nat × Nat :=
  match txs with
  | [] => (m, 0, 0)
  | tx :: rest =>
      let r1 := remove_unspents tx m
      let r2 := insert_unspents tx h r1.2
      let r := applyTxs h r2.2 rest
      (r.1, r1.1.2 + r.2.1, r2.1.2 + r.2.2)

/-- The per-transaction loop of Balances.on_block: remove then insert the
unspents of each transaction and accumulate spent value (in_v) and created
value (out_v) in wrapping i64 arithmetic. -/
def blockStats (h : Nat) (acc : Unspents × Int × Int) (txs : List Tx) : Unspents × Int × Int :=
  match txs with
  | [] => acc
  | tx :: rest =>
      let r1 := remove_unspents tx acc.1
      let r2 := insert_unspents tx h r1.2
      blockStats h
        (r2.2, wrap64 (acc.2.1 + u64_as_i64 r1.1.2), wrap64 (acc.2.2 + u64_as_i64 r2.1.2))
        rest

/-- The lost quantity computed by Balances.on_block:
b_reward + in_v - out_v in wrapping i64 arithmetic. -/
def blockLost (h : Nat) (m : Unspents) (txs : List Tx) : Int :=
  let s := blockStats h (m, 0, 0) txs
  wrap64 (wrap64 (u64_as_i64 (block_reward h) + s.2.1) - s.2.2)

/-- File-system activity, recorded as events. -/
inductive FsEvent where
  | create (path : String)
  | writeLine (path : String) (line : String)
  | appendRow (path : String) (row : List String)
  | logError (msg : String)
  | rename (src : String) (dst : String)
deriving DecidableEq

/-- Result of a lifecycle call: normal return of Ok, propagated error
(the question-mark operator), or process abort (.expect on a failure). -/
inductive Outcome where
  | ok
  | err
  | fatal
deriving DecidableEq

/-- The state of the Balances callback (struct Balances in the source;
the open temporary-file writer is identified by its path). -/
structure Balances where
  dump_folder : String
  unspents : Unspents
  lost_value : Nat
  start_height : Nat
  end_height : Nat
deriving DecidableEq

/-- Path of the temporary snapshot file inside the dump folder. -/
def tmpPath (folder : String) : String := folder ++ "/balances.csv.tmp"

/-- Path of the finalized snapshot file, parameterized by the observed
start and end heights. -/
def finalPath (folder : String) (s e : Nat) : String :=
  folder ++ "/balances-" ++ toString s ++ "-" ++ toString e ++ ".csv"

/-- Balances::new: construct the callback with the given dump folder,
opening (File::create) the temporary snapshot file balances.csv.tmp, with
an empty unspent index and zeroed heights and lost_value. -/
def Balances.new (dump_folder : String) : Balances × List FsEvent :=
  (⟨dump_folder, [], 0, 0, 0⟩, [FsEvent.create (tmpPath dump_folder)])

/-- Balances::on_start: record the first height; apart from a log line it
performs no other work and touches no file. -/
def on_start (cb : Balances) (block_height : Nat) : Balances × List FsEvent × Outcome :=
  ({ cb with start_height := block_height }, [], Outcome.ok)

/-- write_to_csv: the record appended to the fixed-name audit file
output.csv — five comma-separated fields, no header (has_headers false). -/
def write_to_csv (block_height : Nat) (b_reward in_v out_v lost : Int) : List String :=
  [toString block_height, toString b_reward, toString in_v, toString out_v, toString lost]

/-- The audit-trail activity of one on_block call: one appended row to
the fixed-name file output.csv exactly when lost is strictly positive (a
failed append is only logged and swallowed). -/
def auditEvents (auditOk : Bool) (block_height : Nat) (b_reward in_v out_v lost : Int) :
    List FsEvent :=
  if 0 < lost then
    if auditOk then
      [FsEvent.appendRow "output.csv" (write_to_csv block_height b_reward in_v out_v lost)]
    else [FsEvent.logError "Failed to write to CSV"]
  else []

/-- Balances::on_block: run the spend/insert loop, compute
lost = b_reward + in_v - out_v in i64, append an audit row to output.csv
when lost is strictly positive (a failed append is only logged), and add
lost cast to u64 into lost_value unconditionally.  Always returns Ok. -/
def on_block (auditOk : Bool) (cb : Balances) (blk : Block) (block_height : Nat) :
    Balances × List FsEvent × Outcome :=
  let s := blockStats block_height (cb.unspents, 0, 0) blk.txs
  let lost := blockLost block_height cb.unspents blk.txs
  ({ cb with
      unspents := s.1,
      lost_value := (cb.lost_value + i64_as_u64 lost) % 2 ^ 64 },
   auditEvents auditOk block_height (u64_as_i64 (block_reward block_height)) s.2.1 s.2.2 lost,
   Outcome.ok)

/-- One step of the balance-collection loop of Balances.on_complete:
balances.entry(address).or_insert(0) += value, in wrapping u64
arithmetic. -/
def addBalance (acc : List (String × Nat)) (a : String) (v : Nat) : List (String × Nat) :=
  match acc with
  | [] => [(a, v % 2 ^ 64)]
  | ab :: rest =>
      if ab.1 = a then (ab.1, (ab.2 + v) % 2 ^ 64) :: rest else ab :: addBalance rest a v

/-- The balance aggregation of Balances.on_complete: fold every entry of
the unspent index into an address-to-balance map. -/
def aggregate (us : Unspents) : List (String × Nat) :=
  us.foldl (fun acc kv => addBalance acc kv.2.address kv.2.value) []

/-- Lookup in the aggregated balance map. -/
def lookupBal (acc : List (String × Nat)) (a : String) : Option Nat :=
  match acc with
  | [] => none
  | ab :: rest => if ab.1 = a then some ab.2 else lookupBal rest a

/-- Exact sum of the values of all live outputs owned by an address. -/
def sumBal (a : String) (us : Unspents) : Nat :=
  match us with
  | [] => 0
  | kv :: rest => (if kv.2.address = a then kv.2.value else 0) + sumBal a rest

/-- The multiset of owning addresses of the live outputs, as a list. -/
def addrsOf (us : Unspents) : List String := us.map fun kv => kv.2.address

/-- Balances::on_complete: set end_height, write the header line and one
address;balance row per aggregated address to the temporary file (a failed
write propagates as an error through the question-mark operator), then
rename the temporary file to balances-(start)-(end).csv; a failed rename
hits .expect and aborts the process. -/
def on_complete (writeOk renameOk : Bool) (cb : Balances) (block_height : Nat) :
    Balances × List FsEvent × Outcome :=
  let cb1 := { cb with end_height := block_height }
  if writeOk then
    let tmp := tmpPath cb.dump_folder
    let header := FsEvent.writeLine tmp "address;balance\n"
    let rows := (aggregate cb.unspents).map fun ab =>
      FsEvent.writeLine tmp (ab.1 ++ ";" ++ toString ab.2 ++ "\n")
    if renameOk then
      (cb1, header :: rows ++
        [FsEvent.rename tmp (finalPath cb.dump_folder cb.start_height block_height)],
       Outcome.ok)
    else (cb1, header :: rows, Outcome.fatal)
  else (cb1, [], Outcome.err)

/-- A run of on_block calls, one per delivered (block, height) pair, with
successful audit appends. -/
def runBlocks (bs : List (Block × Nat)) (cb : Balances) : Balances :=
  bs.foldl (fun s bh => (on_block true s bh.1 bh.2).1) cb

/-- A concrete coinbase-style transaction paying 6 * 10^9 satoshis to
address A: its created value exceeds subsidy plus spent value, so its
lost quantity is negative. -/
def txA : Tx := Tx.mk [1] [] [TxOutput.mk (some "A") 6000000000]

/-- The block holding txA. -/
def blkNeg : Block := Block.mk [txA]

/-- A concrete transaction paying 4999990000 satoshis to address B: its
lost quantity at height 1 is 10000, strictly positive. -/
def txB : Tx := Tx.mk [2] [] [TxOutput.mk (some "B") 4999990000]

/-- The block holding txB. -/
def blkPos : Block := Block.mk [txB]

/-- The freshly constructed callback state for dump folder d. -/
def cb0 : Balances := (Balances.new "d").1

/-- A concrete unspent index with two live outputs for address A and one
for address B. -/
def usW : Unspents :=
  [([0], UnspentValue.mk "A" 10 0),
   ([1], UnspentValue.mk "B" 5 0),
   ([2], UnspentValue.mk "A" 7 1)]

/-- The result of wrap64 lies in the signed 64-bit range. -/
theorem wrap64_range (x : Int) : -(2 ^ 63) ≤ wrap64 x ∧ wrap64 x < 2 ^ 63 := by
  unfold wrap64
  have p63 : (2 : Int) ^ 63 = 9223372036854775808 := by norm_num
  have p64 : (2 : Int) ^ 64 = 18446744073709551616 := by norm_num
  have h1 : (0 : Int) ≤ (x + 2 ^ 63) % 2 ^ 64 := Int.emod_nonneg _ (by norm_num)
  have h2 : (x + 2 ^ 63) % 2 ^ 64 < 2 ^ 64 := Int.emod_lt_of_pos _ (by norm_num)
  omega

/-- wrap64 is the identity on the signed 64-bit range. -/
theorem wrap64_eq_of (x : Int) (h1 : -(2 ^ 63) ≤ x) (h2 : x < 2 ^ 63) : wrap64 x = x := by
  unfold wrap64
  have p63 : (2 : Int) ^ 63 = 9223372036854775808 := by norm_num
  have p64 : (2 : Int) ^ 64 = 18446744073709551616 := by norm_num
  rw [Int.emod_eq_of_lt (by omega) (by omega)]
  omega

/-- The u64-to-i64 cast is the identity below 2 ^ 63. -/
theorem u64_as_i64_eq (n : Nat) (h : n < 2 ^ 63) : u64_as_i64 n = (n : Int) := by
  have h0 : (0 : Int) ≤ (n : Int) := Int.natCast_nonneg n
  have h2 : ((n : Int) < 2 ^ 63) := by exact_mod_cast h
  exact wrap64_eq_of _ (le_trans (by norm_num) h0) h2

/-- The block reward never exceeds the initial subsidy. -/
theorem block_reward_le (h : Nat) : block_reward h ≤ 5000000000 := by
  have e : block_reward h = 5000000000 / 2 ^ (h / 210000 % 64) := by
    simp [block_reward, Nat.shiftRight_eq_div_pow]
  rw [e]
  exact Nat.div_le_self _ _

/-- The lost quantity of a block lies in the signed 64-bit range. -/
theorem blockLost_range (h : Nat) (m : Unspents) (txs : List Tx) :
    -(2 ^ 63) ≤ blockLost h m txs ∧ blockLost h m txs < 2 ^ 63 := by
  unfold blockLost
  exact wrap64_range _

/-- C1: the engine only folds a blocks lost amount into the running
lost_value total when lost is strictly positive, leaving the total
unchanged for zero or negative lost.  The code instead adds the wrapping
u64 cast of lost unconditionally: at the concrete block blkNeg at height 0
the lost quantity is -10^9, yet lost_value moves from 0 to
2^64 - 10^9. -/
theorem lost_value_underflow_at_negative_lost :
    blockLost 0 cb0.unspents blkNeg.txs = -1000000000 ∧
    cb0.lost_value = 0 ∧
    (on_block true cb0 blkNeg 0).1.lost_value = 18446744072709551616 := by
  refine ⟨by decide, by decide, by decide⟩

/-- C2: the subsidy is claimed to saturate to 0 once height / 210000
reaches the 64-bit width, never wrapping and never panicking.  The values
at 0 and 210000 match the claim, but at height 13440000 (= 64 * 210000)
the shift count is masked modulo 64 in a release build (a debug build
panics), so the function returns the full initial subsidy, not 0. -/
theorem block_reward_shift_not_saturating :
    block_reward 0 = 5000000000 ∧
    block_reward 210000 = 2500000000 ∧
    block_reward 13440000 = 5000000000 ∧
    block_reward 13440000 ≠ 0 := by
  refine ⟨by decide, by decide, by decide, by decide⟩

/-- C8: a failure while appending an audit row is non-fatal: on_block
still returns Ok and the resulting state is identical to the state
produced when the append succeeds. -/
theorem audit_failure_nonfatal (cb : Balances) (blk : Block) (h : Nat) :
    (on_block false cb blk h).2.2 = Outcome.ok ∧
    (on_block true cb blk h).2.2 = Outcome.ok ∧
    (on_block false cb blk h).1 = (on_block true cb blk h).1 :=
  ⟨rfl, rfl, rfl⟩

/-- C9 counterexample: on_start is claimed to perform the one-time setup
of opening the temporary output file, but its file activity is empty; the
create event for balances.csv.tmp is emitted by Balances::new, at
construction. -/
theorem on_start_does_not_open_file :
    (on_start cb0 5).2.1 = [] ∧
    (Balances.new "d").2 = [FsEvent.create "d/balances.csv.tmp"] :=
  ⟨rfl, rfl⟩

/-- C9 amended: on_start(height) records the runs first height in
start_height and does nothing else — it leaves the Unspent Index,
lost_value and end_height unchanged and opens no file; the temporary
output file is opened once at engine construction (Balances::new),
before on_start. -/
theorem on_start_sets_start_height_only (cb : Balances) (h : Nat) (f : String) :
    on_start cb h = ({ cb with start_height := h }, [], Outcome.ok) ∧
    (on_start cb h).1.unspents = cb.unspents ∧
    (on_start cb h).1.lost_value = cb.lost_value ∧
    (on_start cb h).1.end_height = cb.end_height ∧
    (Balances.new f).2 = [FsEvent.create (f ++ "/balances.csv.tmp")] :=
  ⟨rfl, rfl, rfl, rfl, rfl⟩

/-- C10: after every on_block call, lost_value is the prior value plus
the signed lost reinterpreted as an unsigned 64-bit value, modulo 2^64;
when lost is negative the added amount is lost + 2^64, so lost_value
still changes. -/
theorem lost_value_mod_accumulation (ao : Bool) (cb : Balances) (blk : Block) (h : Nat)
    (_hlv : cb.lost_value < 2 ^ 64) :
    (on_block ao cb blk h).1.lost_value
        = (cb.lost_value + ((blockLost h cb.unspents blk.txs) % 2 ^ 64).toNat) % 2 ^ 64 ∧
    (blockLost h cb.unspents blk.txs < 0 →
      ((blockLost h cb.unspents blk.txs) % 2 ^ 64).toNat
          = (blockLost h cb.unspents blk.txs + 2 ^ 64).toNat ∧
      (on_block ao cb blk h).1.lost_value ≠ cb.lost_value) := by
  have hfst : (on_block ao cb blk h).1.lost_value
      = (cb.lost_value + ((blockLost h cb.unspents blk.txs) % 2 ^ 64).toNat) % 2 ^ 64 := rfl
  refine ⟨hfst, fun hneg => ?_⟩
  have hrange := blockLost_range h cb.unspents blk.txs
  have p63 : (2 : Int) ^ 63 = 9223372036854775808 := by norm_num
  have p64 : (2 : Int) ^ 64 = 18446744073709551616 := by norm_num
  have q64 : (2 : Nat) ^ 64 = 18446744073709551616 := by norm_num
  have hmod : (blockLost h cb.unspents blk.txs) % 2 ^ 64
      = blockLost h cb.unspents blk.txs + 2 ^ 64 := by
    have e1 : (blockLost h cb.unspents blk.txs + 2 ^ 64) % 2 ^ 64
        = (blockLost h cb.unspents blk.txs) % 2 ^ 64 := by
      omega
    rw [← e1, Int.emod_eq_of_lt (by omega) (by omega)]
  refine ⟨by rw [hmod], ?_⟩
  rw [hfst, hmod]
  omega

/-- C10 witness: the accumulation law instantiated at the concrete
negative-lost block blkNeg at height 0. -/
theorem lost_value_mod_accumulation_witness :
    cb0.lost_value < 2 ^ 64 ∧
    ((on_block true cb0 blkNeg 0).1.lost_value
        = (cb0.lost_value + ((blockLost 0 cb0.unspents blkNeg.txs) % 2 ^ 64).toNat) % 2 ^ 64 ∧
      (blockLost 0 cb0.unspents blkNeg.txs < 0 →
        ((blockLost 0 cb0.unspents blkNeg.txs) % 2 ^ 64).toNat
            = (blockLost 0 cb0.unspents blkNeg.txs + 2 ^ 64).toNat ∧
        (on_block true cb0 blkNeg 0).1.lost_value ≠ cb0.lost_value)) :=
  ⟨by decide, lost_value_mod_accumulation true cb0 blkNeg 0 (by decide)⟩

/-- C7: if the rename of the temporary snapshot fails at completion, the
run aborts (the failure reaches .expect and is fatal, never swallowed),
and whenever on_complete returns Ok the rename of the temporary file to
the finalized name is among its file activity. -/
theorem rename_failure_fatal (cb : Balances) (h : Nat) :
    (on_complete true false cb h).2.2 = Outcome.fatal ∧
    (∀ w r : Bool, (on_complete w r cb h).2.2 = Outcome.ok →
      FsEvent.rename (tmpPath cb.dump_folder) (finalPath cb.dump_folder cb.start_height h)
        ∈ (on_complete w r cb h).2.1) := by
  refine ⟨rfl, fun w r hok => ?_⟩
  cases w
  · simp [on_complete] at hok
  · cases r
    · simp [on_complete] at hok
    · simp [on_complete]

/-- C7 witness: the fatality of a failed rename and the presence of the
rename event on the successful path, at the concrete fresh state cb0. -/
theorem rename_failure_fatal_witness :
    (on_complete true false cb0 7).2.2 = Outcome.fatal ∧
    FsEvent.rename (tmpPath cb0.dump_folder) (finalPath cb0.dump_folder cb0.start_height 7)
      ∈ (on_complete true true cb0 7).2.1 :=
  ⟨(rename_failure_fatal cb0 7).1, (rename_failure_fatal cb0 7).2 true true (by decide)⟩

/-- Both metadata fields that on_complete reads are untouched by
on_block runs: dump_folder and start_height. -/
theorem runBlocks_preserves (bs : List (Block × Nat)) : ∀ cb : Balances,
    (runBlocks bs cb).dump_folder = cb.dump_folder ∧
    (runBlocks bs cb).start_height = cb.start_height := by
  induction bs with
  | nil => intro cb; exact ⟨rfl, rfl⟩
  | cons b rest ih =>
      intro cb
      have h2 := ih ((on_block true cb b.1 b.2).1)
      simpa [runBlocks, List.foldl_cons] using h2

/-- C6: over a full run — construction for folder f, on_start at h0, any
sequence of blocks, on_complete at h1 with all file operations
succeeding — the snapshot is written to f/balances.csv.tmp as the header
row followed by one address;balance row per aggregated address, and the
temporary file is renamed to f/balances-h0-h1.csv, the heights recorded
at on_start and on_complete. -/
theorem snapshot_pipeline_files (f : String) (h0 h1 : Nat) (bs : List (Block × Nat)) :
    (Balances.new f).2 = [FsEvent.create (f ++ "/balances.csv.tmp")] ∧
    (on_complete true true (runBlocks bs (on_start (Balances.new f).1 h0).1) h1).2.1
      = FsEvent.writeLine (f ++ "/balances.csv.tmp") "address;balance\n"
        :: ((aggregate (runBlocks bs (on_start (Balances.new f).1 h0).1).unspents).map fun ab =>
              FsEvent.writeLine (f ++ "/balances.csv.tmp") (ab.1 ++ ";" ++ toString ab.2 ++ "\n"))
        ++ [FsEvent.rename (f ++ "/balances.csv.tmp")
              (f ++ "/balances-" ++ toString h0 ++ "-" ++ toString h1 ++ ".csv")] ∧
    (on_complete true true (runBlocks bs (on_start (Balances.new f).1 h0).1) h1).1.start_height
      = h0 ∧
    (on_complete true true (runBlocks bs (on_start (Balances.new f).1 h0).1) h1).1.end_height
      = h1 ∧
    (on_complete true true (runBlocks bs (on_start (Balances.new f).1 h0).1) h1).2.2
      = Outcome.ok := by
  have hpres := runBlocks_preserves bs (on_start (Balances.new f).1 h0).1
  have hdf : (runBlocks bs (on_start (Balances.new f).1 h0).1).dump_folder = f := hpres.1
  have hsh : (runBlocks bs (on_start (Balances.new f).1 h0).1).start_height = h0 := hpres.2
  refine ⟨rfl, ?_, ?_, rfl, rfl⟩
  · simp [on_complete, tmpPath, finalPath, hdf, hsh]
  · exact hsh

/-- Effect of one addBalance step on a lookup. -/
theorem lookupBal_addBalance (acc : List (String × Nat)) (a0 : String) (v : Nat) (a : String) :
    lookupBal (addBalance acc a0 v) a =
      if a0 = a then some (((lookupBal acc a).getD 0 + v) % 2 ^ 64)
      else lookupBal acc a := by
  induction acc with
  | nil => by_cases h : a0 = a <;> simp [addBalance, lookupBal, h]
  | cons ab rest ih =>
      by_cases h1 : ab.1 = a0
      · by_cases h2 : a0 = a
        · simp [addBalance, lookupBal, h1, h2]
        · have h3 : ab.1 ≠ a := h1 ▸ h2
          simp [addBalance, lookupBal, h1, h2, h3]
      · by_cases h2 : ab.1 = a
        · have h3 : a0 ≠ a := fun he => h1 (h2.trans he.symm)
          have h4 : a ≠ a0 := fun he => h3 he.symm
          simp [addBalance, lookupBal, h1, h2, h3, h4]
        · simp [addBalance, lookupBal, h1, h2, ih]

/-- Unfolding of the address list at a cons cell. -/
theorem addrsOf_cons (kv : Bytes × UnspentValue) (rest : Unspents) :
    addrsOf (kv :: rest) = kv.2.address :: addrsOf rest := rfl

/-- Unfolding of the per-address sum at a cons cell. -/
theorem sumBal_cons (a : String) (kv : Bytes × UnspentValue) (rest : Unspents) :
    sumBal a (kv :: rest) = (if kv.2.address = a then kv.2.value else 0) + sumBal a rest := rfl

/-- An address owning no live output contributes a zero sum. -/
theorem sumBal_eq_zero (a : String) (us : Unspents) (h : a ∉ addrsOf us) :
    sumBal a us = 0 := by
  induction us with
  | nil => rfl
  | cons kv rest ih =>
      rw [addrsOf_cons, List.mem_cons] at h
      push_neg at h
      have h1 : kv.2.address ≠ a := fun he => h.1 he.symm
      rw [sumBal_cons, if_neg h1, ih h.2]

/-- Lookup after folding the whole unspent index into an accumulator. -/
theorem lookupBal_fold (us : Unspents) : ∀ (acc : List (String × Nat)) (a : String),
    lookupBal (us.foldl (fun x kv => addBalance x kv.2.address kv.2.value) acc) a =
      if a ∈ addrsOf us then some (((lookupBal acc a).getD 0 + sumBal a us) % 2 ^ 64)
      else lookupBal acc a := by
  induction us with
  | nil => intro acc a; simp [addrsOf, sumBal]
  | cons kv rest ih =>
      intro acc a
      rw [List.foldl_cons, ih (addBalance acc kv.2.address kv.2.value) a,
        lookupBal_addBalance, addrsOf_cons]
      simp only [List.mem_cons, sumBal_cons]
      by_cases he : kv.2.address = a
      · by_cases hm : a ∈ addrsOf rest
        · rw [if_pos hm, if_pos (Or.inl he.symm), if_pos he]
          simp [he, Nat.mod_add_mod, Nat.add_assoc]
        · rw [if_neg hm, if_pos (Or.inl he.symm), if_pos he, sumBal_eq_zero a rest hm]
          simp [he]
      · have he2 : a ≠ kv.2.address := fun h => he h.symm
        rw [if_neg he]
        by_cases hm : a ∈ addrsOf rest
        · rw [if_pos hm, if_pos (Or.inr hm)]
          simp [he]
        · rw [if_neg hm, if_neg (by rintro (h | h); exacts [he2 h, hm h])]

/-- Effect of one addBalance step on the key list. -/
theorem keys_addBalance (acc : List (String × Nat)) (a : String) (v : Nat) :
    (addBalance acc a v).map Prod.fst
      = if a ∈ acc.map Prod.fst then acc.map Prod.fst else acc.map Prod.fst ++ [a] := by
  induction acc with
  | nil => simp [addBalance]
  | cons ab rest ih =>
      by_cases h1 : ab.1 = a
      · simp [addBalance, h1]
      · have h2 : a ≠ ab.1 := fun h => h1 h.symm
        by_cases h3 : a ∈ rest.map Prod.fst
        · simp [addBalance, h1, h2, h3, ih]
        · simp [addBalance, h1, h2, h3, ih]

/-- addBalance preserves distinctness of the keys. -/
theorem nodup_addBalance (acc : List (String × Nat)) (a : String) (v : Nat)
    (h : (acc.map Prod.fst).Nodup) : ((addBalance acc a v).map Prod.fst).Nodup := by
  rw [keys_addBalance]
  by_cases h2 : a ∈ acc.map Prod.fst
  · simpa [h2]
  · simp [h2, List.nodup_append, h]

/-- The balance-collection fold keeps the keys distinct. -/
theorem nodup_fold (us : Unspents) : ∀ acc : List (String × Nat),
    (acc.map Prod.fst).Nodup →
    ((us.foldl (fun x kv => addBalance x kv.2.address kv.2.value) acc).map Prod.fst).Nodup := by
  induction us with
  | nil => intro acc h; simpa
  | cons kv rest ih =>
      intro acc h
      rw [List.foldl_cons]
      exact ih _ (nodup_addBalance acc kv.2.address kv.2.value h)

/-- A lookup misses exactly when the address is not among the keys. -/
theorem lookupBal_eq_none (acc : List (String × Nat)) (a : String) :
    lookupBal acc a = none ↔ a ∉ acc.map Prod.fst := by
  induction acc with
  | nil => simp [lookupBal]
  | cons ab rest ih =>
      by_cases h : ab.1 = a
      · simp [lookupBal, h]
      · have h2 : a ≠ ab.1 := fun he => h he.symm
        simp [lookupBal, h, h2, ih]

/-- C5: the aggregation produces a mapping with pairwise-distinct
addresses; an address is present exactly when it owns at least one live
output, in which case its balance is the sum of the values of all its
live outputs; an address owning none is absent, not present with zero. -/
theorem aggregate_one_entry_per_address (us : Unspents) (a : String)
    (hsum : sumBal a us < 2 ^ 64) :
    ((aggregate us).map Prod.fst).Nodup ∧
    (a ∈ (aggregate us).map Prod.fst ↔ a ∈ addrsOf us) ∧
    (a ∈ addrsOf us → lookupBal (aggregate us) a = some (sumBal a us)) ∧
    (a ∉ addrsOf us → lookupBal (aggregate us) a = none) := by
  have hagg : lookupBal (aggregate us) a
      = if a ∈ addrsOf us then some (sumBal a us % 2 ^ 64) else none := by
    simpa [aggregate, lookupBal] using lookupBal_fold us [] a
  refine ⟨nodup_fold us [] (by simp), ?_, ?_, ?_⟩
  · constructor
    · intro hk
      by_contra hna
      have hnone : lookupBal (aggregate us) a = none := by rw [hagg, if_neg hna]
      exact (lookupBal_eq_none (aggregate us) a).1 hnone hk
    · intro hin
      by_contra hk
      have hnone : lookupBal (aggregate us) a = none :=
        (lookupBal_eq_none (aggregate us) a).2 hk
      rw [hagg, if_pos hin] at hnone
      exact Option.noConfusion hnone
  · intro hin
    rw [hagg, if_pos hin, Nat.mod_eq_of_lt hsum]
  · intro hna
    rw [hagg, if_neg hna]

/-- C5 witness: the aggregation law instantiated at the concrete index
usW (two live outputs for A, one for B) and address A. -/
theorem aggregate_one_entry_per_address_witness :
    sumBal "A" usW < 2 ^ 64 ∧
    (((aggregate usW).map Prod.fst).Nodup ∧
     ("A" ∈ (aggregate usW).map Prod.fst ↔ "A" ∈ addrsOf usW) ∧
     ("A" ∈ addrsOf usW → lookupBal (aggregate usW) "A" = some (sumBal "A" usW)) ∧
     ("A" ∉ addrsOf usW → lookupBal (aggregate usW) "A" = none)) :=
  ⟨by decide, aggregate_one_entry_per_address usW "A" (by decide)⟩

/-- Unfolding of the exact applier at nil. -/
theorem applyTxs_nil (h : Nat) (m : Unspents) : applyTxs h m [] = (m, 0, 0) := rfl

/-- Unfolding of the exact applier at a cons cell. -/
theorem applyTxs_cons (h : Nat) (m : Unspents) (tx : Tx) (rest : List Tx) :
    applyTxs h m (tx :: rest)
      = ((applyTxs h (insert_unspents tx h (remove_unspents tx m).2).2 rest).1,
         (remove_unspents tx m).1.2
           + (applyTxs h (insert_unspents tx h (remove_unspents tx m).2).2 rest).2.1,
         (insert_unspents tx h (remove_unspents tx m).2).1.2
           + (applyTxs h (insert_unspents tx h (remove_unspents tx m).2).2 rest).2.2) := rfl

/-- Unfolding of the wrapping loop at a cons cell. -/
theorem blockStats_cons3 (h : Nat) (m : Unspents) (x y : Int) (tx : Tx) (rest : List Tx) :
    blockStats h (m, x, y) (tx :: rest)
      = blockStats h
          ((insert_unspents tx h (remove_unspents tx m).2).2,
           wrap64 (x + u64_as_i64 (remove_unspents tx m).1.2),
           wrap64 (y + u64_as_i64 (insert_unspents tx h (remove_unspents tx m).2).1.2))
          rest := rfl

/-- One wrapping accumulator step agrees with exact addition while the
exact total stays below 2 ^ 63. -/
theorem wrap64_add_nat (a n : Nat) (h : a + n < 2 ^ 63) :
    wrap64 ((a : Int) + u64_as_i64 n) = ((a + n : Nat) : Int) := by
  have hn : n < 2 ^ 63 := by omega
  rw [u64_as_i64_eq n hn]
  have h2 : ((a + n : Nat) : Int) < 2 ^ 63 := by exact_mod_cast h
  have h0 : (0 : Int) ≤ ((a + n : Nat) : Int) := Int.natCast_nonneg _
  have he : (a : Int) + (n : Int) = ((a + n : Nat) : Int) := by push_cast; ring
  rw [he]
  exact wrap64_eq_of _ (le_trans (by norm_num) h0) h2

/-- The wrapping i64 loop of on_block computes the same map and the exact
spent/created totals while those stay below 2 ^ 63. -/
theorem blockStats_eq (h : Nat) : ∀ (txs : List Tx) (m : Unspents) (a b : Nat),
    a + (applyTxs h m txs).2.1 < 2 ^ 63 →
    b + (applyTxs h m txs).2.2 < 2 ^ 63 →
    blockStats h (m, (a : Int), (b : Int)) txs
      = ((applyTxs h m txs).1,
         ((a + (applyTxs h m txs).2.1 : Nat) : Int),
         ((b + (applyTxs h m txs).2.2 : Nat) : Int)) := by
  intro txs
  induction txs with
  | nil =>
      intro m a b ha hb
      rw [applyTxs_nil]
      simp [blockStats]
  | cons tx rest ih =>
      intro m a b ha hb
      simp only [applyTxs_cons] at ha hb ⊢
      rw [blockStats_cons3]
      rw [wrap64_add_nat a _ (by omega), wrap64_add_nat b _ (by omega)]
      rw [ih (insert_unspents tx h (remove_unspents tx m).2).2
            (a + (remove_unspents tx m).1.2)
            (b + (insert_unspents tx h (remove_unspents tx m).2).1.2)
            (by omega) (by omega)]
      simp [Nat.add_assoc]

/-- The lost quantity of on_block agrees with the exact signed formula
subsidy + spent - created whenever the blocks exact spent and created
totals are within the protocol value range (at most 2.1 * 10^15
satoshis, the monetary cap). -/
theorem blockLost_def (h : Nat) (m : Unspents) (txs : List Tx) :
    blockLost h m txs
      = wrap64 (wrap64 (u64_as_i64 (block_reward h) + (blockStats h (m, 0, 0) txs).2.1)
          - (blockStats h (m, 0, 0) txs).2.2) := rfl

theorem blockLost_eq_core (h : Nat) (m : Unspents) (txs : List Tx)
    (hs : (applyTxs h m txs).2.1 ≤ 2100000000000000)
    (hc : (applyTxs h m txs).2.2 ≤ 2100000000000000) :
    blockLost h m txs
      = (block_reward h : Int) + ((applyTxs h m txs).2.1 : Int)
        - ((applyTxs h m txs).2.2 : Int) := by
  have p63n : (2 : Nat) ^ 63 = 9223372036854775808 := by norm_num
  have p63 : (2 : Int) ^ 63 = 9223372036854775808 := by norm_num
  have hbs := blockStats_eq h txs m 0 0 (by omega) (by omega)
  simp only [Nat.cast_zero, Nat.zero_add] at hbs
  have hS : (blockStats h (m, (0 : Int), (0 : Int)) txs).2.1
      = ((applyTxs h m txs).2.1 : Int) := by rw [hbs]
  have hC : (blockStats h (m, (0 : Int), (0 : Int)) txs).2.2
      = ((applyTxs h m txs).2.2 : Int) := by rw [hbs]
  have hR : block_reward h ≤ 5000000000 := block_reward_le h
  have e0 : u64_as_i64 (block_reward h) = ((block_reward h : Nat) : Int) :=
    u64_as_i64_eq _ (by omega)
  rw [blockLost_def, hS, hC, e0]
  have hSle : ((applyTxs h m txs).2.1 : Int) ≤ 2100000000000000 := by exact_mod_cast hs
  have hCle : ((applyTxs h m txs).2.2 : Int) ≤ 2100000000000000 := by exact_mod_cast hc
  have hS0 : (0 : Int) ≤ ((applyTxs h m txs).2.1 : Int) := Int.natCast_nonneg _
  have hC0 : (0 : Int) ≤ ((applyTxs h m txs).2.2 : Int) := Int.natCast_nonneg _
  have hR2 : ((block_reward h : Nat) : Int) ≤ 5000000000 := by exact_mod_cast hR
  have hR0 : (0 : Int) ≤ ((block_reward h : Nat) : Int) := Int.natCast_nonneg _
  rw [wrap64_eq_of (((block_reward h : Nat) : Int) + ((applyTxs h m txs).2.1 : Int))
    (by omega) (by omega)]
  rw [wrap64_eq_of _ (by omega) (by omega)]

/-- C3: for each processed block, the lost quantity equals
subsidy(height) + spent_value - created_value exactly — the signed 64-bit
computation in on_block does not wrap for values within the protocol
value range. -/
theorem lost_eq_reward_add_spent_sub_created (cb : Balances) (blk : Block) (h : Nat)
    (hs : (applyTxs h cb.unspents blk.txs).2.1 ≤ 2100000000000000)
    (hc : (applyTxs h cb.unspents blk.txs).2.2 ≤ 2100000000000000) :
    blockLost h cb.unspents blk.txs
      = (block_reward h : Int) + ((applyTxs h cb.unspents blk.txs).2.1 : Int)
        - ((applyTxs h cb.unspents blk.txs).2.2 : Int) :=
  blockLost_eq_core h cb.unspents blk.txs hs hc

/-- C3 witness: the lost formula instantiated at the concrete block
blkPos (no inputs, one 4999990000-satoshi output to B) at height 1. -/
theorem lost_eq_reward_add_spent_sub_created_witness :
    (applyTxs 1 cb0.unspents blkPos.txs).2.1 ≤ 2100000000000000 ∧
    (applyTxs 1 cb0.unspents blkPos.txs).2.2 ≤ 2100000000000000 ∧
    blockLost 1 cb0.unspents blkPos.txs
      = (block_reward 1 : Int) + ((applyTxs 1 cb0.unspents blkPos.txs).2.1 : Int)
        - ((applyTxs 1 cb0.unspents blkPos.txs).2.2 : Int) :=
  ⟨by decide, by decide,
    lost_eq_reward_add_spent_sub_created cb0 blkPos 1 (by decide) (by decide)⟩

/-- Unfolding of the audit activity of on_block. -/
theorem on_block_events (auditOk : Bool) (cb : Balances) (blk : Block) (h : Nat) :
    (on_block auditOk cb blk h).2.1
      = auditEvents auditOk h (u64_as_i64 (block_reward h))
          (blockStats h (cb.unspents, 0, 0) blk.txs).2.1
          (blockStats h (cb.unspents, 0, 0) blk.txs).2.2
          (blockLost h cb.unspents blk.txs) := by
  simp only [on_block]

/-- C4: one audit row is emitted, to the fixed-name file output.csv,
exactly when the blocks lost value is strictly positive, and it consists
of the five comma-separated fields block height, subsidy, spent value,
created value and lost, with no header row. -/
theorem audit_row_iff_positive_lost (cb : Balances) (blk : Block) (h : Nat)
    (hs : (applyTxs h cb.unspents blk.txs).2.1 ≤ 2100000000000000)
    (hc : (applyTxs h cb.unspents blk.txs).2.2 ≤ 2100000000000000) :
    (on_block true cb blk h).2.1
      = (if 0 < (block_reward h : Int) + ((applyTxs h cb.unspents blk.txs).2.1 : Int)
              - ((applyTxs h cb.unspents blk.txs).2.2 : Int) then
          [FsEvent.appendRow "output.csv"
            [toString h, toString ((block_reward h : Nat) : Int),
             toString (((applyTxs h cb.unspents blk.txs).2.1 : Nat) : Int),
             toString (((applyTxs h cb.unspents blk.txs).2.2 : Nat) : Int),
             toString ((block_reward h : Int) + ((applyTxs h cb.unspents blk.txs).2.1 : Int)
               - ((applyTxs h cb.unspents blk.txs).2.2 : Int))]]
         else []) := by
  have p63n : (2 : Nat) ^ 63 = 9223372036854775808 := by norm_num
  have hlost := blockLost_eq_core h cb.unspents blk.txs hs hc
  have hbs := blockStats_eq h blk.txs cb.unspents 0 0 (by omega) (by omega)
  simp only [Nat.cast_zero, Nat.zero_add] at hbs
  have hS : (blockStats h (cb.unspents, (0 : Int), (0 : Int)) blk.txs).2.1
      = ((applyTxs h cb.unspents blk.txs).2.1 : Int) := by rw [hbs]
  have hC : (blockStats h (cb.unspents, (0 : Int), (0 : Int)) blk.txs).2.2
      = ((applyTxs h cb.unspents blk.txs).2.2 : Int) := by rw [hbs]
  have hR : block_reward h ≤ 5000000000 := block_reward_le h
  have e0 : u64_as_i64 (block_reward h) = ((block_reward h : Nat) : Int) :=
    u64_as_i64_eq _ (by omega)
  rw [on_block_events, hlost, hS, hC, e0]
  simp only [auditEvents, write_to_csv, if_true]

/-- C4 witness: the audit row law instantiated at the concrete block
blkPos at height 1 (lost = 10000, so the row is emitted). -/
theorem audit_row_iff_positive_lost_witness :
    (applyTxs 1 cb0.unspents blkPos.txs).2.1 ≤ 2100000000000000 ∧
    (applyTxs 1 cb0.unspents blkPos.txs).2.2 ≤ 2100000000000000 ∧
    (on_block true cb0 blkPos 1).2.1
      = (if 0 < (block_reward 1 : Int) + ((applyTxs 1 cb0.unspents blkPos.txs).2.1 : Int)
              - ((applyTxs 1 cb0.unspents blkPos.txs).2.2 : Int) then
          [FsEvent.appendRow "output.csv"
            [toString 1, toString ((block_reward 1 : Nat) : Int),
             toString (((applyTxs 1 cb0.unspents blkPos.txs).2.1 : Nat) : Int),
             toString (((applyTxs 1 cb0.unspents blkPos.txs).2.2 : Nat) : Int),
             toString ((block_reward 1 : Int) + ((applyTxs 1 cb0.unspents blkPos.txs).2.1 : Int)
               - ((applyTxs 1 cb0.unspents blkPos.txs).2.2 : Int))]]
         else []) :=
  ⟨by decide, by decide,
    audit_row_iff_positive_lost cb0 blkPos 1 (by decide) (by decide)⟩

end RustyBalances
